import Mathlib

/-!
Verification of the GoFlux radix-tree router (`tree.go`) against its
natural-language specification.

The embedding works over `List Char` in place of Go strings (byte-level
operations in the source become list operations; all comparisons in the
source are byte equalities, which `Char` equality models faithfully).
Handlers are opaque values of a type parameter `H`; the Go
`map[string]HandlerFunc` becomes an association list whose keys are unique
by construction (the source only inserts a key after checking it is
absent, or into a fresh map). A Go `panic` during registration is modelled
by the `InsertResult.panicked` constructor, which carries the tree as
mutated so far (Go mutates in place, so the tree state at the moment of
the panic is observable to the formalisation of claims about it).
-/

namespace GoFlux

/-- Kind of a node in the radix tree: mirrors the Go `nodeType` constants
`static`, `root`, `param`, `catchAll`. -/
inductive NodeType : Type where
  | static : NodeType
  | root : NodeType
  | param : NodeType
  | catchAll : NodeType
deriving DecidableEq, Repr

/-- A node of the radix tree: mirrors the Go `node` struct with fields
`path`, `handlers`, `nType`, `children`, `wildChild`. -/
inductive Node (H : Type) : Type where
  | mk : List Char → List (String × H) → NodeType → List (Node H) → Bool → Node H

variable {H : Type}

/-- The `path` field of a node. -/
def Node.path : Node H → List Char
  | .mk p _ _ _ _ => p

/-- The `handlers` field of a node (`map[string]HandlerFunc` as an
association list; `[]` models both the nil map and the empty map, which
the source never distinguishes observably). -/
def Node.handlers : Node H → List (String × H)
  | .mk _ hs _ _ _ => hs

/-- The `nType` field of a node. -/
def Node.nType : Node H → NodeType
  | .mk _ _ t _ _ => t

/-- The `children` field of a node. -/
def Node.children : Node H → List (Node H)
  | .mk _ _ _ cs _ => cs

/-- The `wildChild` field of a node. -/
def Node.wildChild : Node H → Bool
  | .mk _ _ _ _ w => w

/-- Reading `m[method]` from the Go handler map. -/
def lookupMethod (method : String) : List (String × H) → Option H
  | [] => none
  | (k, v) :: rest => if k = method then some v else lookupMethod method rest

/-- The byte test `c != '/'` of the source's token and parameter scans. -/
def notSlash (b : Char) : Bool := b ≠ '/'

/-- Go `findWildcard`: locates the first `:` or `*` marker; the token runs
from the marker to the next `/` or the end of the string. Returns the
token, its start index (`-1` when there is no marker) and the `valid`
flag. As in the source, `valid` is set unconditionally to `true` as soon
as a marker byte is found. -/
def findWildcard : List Char → List Char × Int × Bool
  | [] => ([], -1, false)
  | c :: rest =>
    if c = ':' ∨ c = '*' then
      (c :: rest.takeWhile notSlash, 0, true)
    else
      match findWildcard rest with
      | (w, i, v) => if 0 ≤ i then (w, i + 1, v) else (w, i, v)

/-- Go `longestCommonPrefix`: length of the longest common byte prefix of
two strings (the source's index loop, written recursively). -/
def longestCommonPrefix : List Char → List Char → Nat
  | a :: as, b :: bs => if a = b then longestCommonPrefix as bs + 1 else 0
  | _, _ => 0

/-- Which Go `panic` fired during `addRoute`: the "invalid wildcard in
path" panic (the spec's `MalformedPattern`) or the "handler already
registered" panic (the spec's `DuplicateRoute`). -/
inductive PanicKind : Type where
  | malformedPattern : PanicKind
  | duplicateRoute : PanicKind
deriving DecidableEq, Repr

/-- Result of a registration call: the updated tree, or a panic together
with the tree as mutated up to the moment of the panic. -/
inductive InsertResult (H : Type) : Type where
  | ok : Node H → InsertResult H
  | panicked : PanicKind → Node H → InsertResult H

/-- The tree carried by an insertion result (the state of the Go tree
after the call, whether or not it panicked). -/
def InsertResult.tree : InsertResult H → Node H
  | .ok t => t
  | .panicked _ t => t

/-- Whether an insertion result is a normal return. -/
def InsertResult.isOk : InsertResult H → Bool
  | .ok _ => true
  | .panicked _ _ => false

/-- Outcome of the source's loop over `n.children` in `addRoute` that
looks for a child sharing the first byte with the remaining path:
no child matched, or the updated child list (resp. the child list at the
moment of a panic inside the recursive call). -/
inductive ChildrenResult (H : Type) : Type where
  | noMatch : ChildrenResult H
  | okL : List (Node H) → ChildrenResult H
  | panickedL : PanicKind → List (Node H) → ChildrenResult H

/-- The tail of Go `addRoute` past the children loop (from "No matching
child, check if new path has wildcards" on): creates the wildcard child,
the static-then-wildcard pair, or the plain static child, and appends it
to `n`'s children. As in the source, the `!valid` guard panics with the
"invalid wildcard" message, and in the split case the wildcard token is
recomputed from the suffix that starts at the marker. -/
def extendNode (n : Node H) (remaining : List Char) (method : String) (handler : H) :
    InsertResult H :=
  match n with
  | .mk npath nhandlers ntype nchildren nwild =>
    match findWildcard remaining with
    | (wildcard, wildcardIndex, valid) =>
      if 0 ≤ wildcardIndex then
        if !valid then
          .panicked .malformedPattern (.mk npath nhandlers ntype nchildren nwild)
        else if 0 < wildcardIndex then
          let remaining2 := remaining.drop wildcardIndex.toNat
          let wildcard2 := (findWildcard remaining2).1
          let wildcardChild : Node H :=
            .mk wildcard2 [(method, handler)]
              (if wildcard2.head? = some '*' then .catchAll else .param) [] false
          let staticChild : Node H :=
            .mk (remaining.take wildcardIndex.toNat) [] .static [wildcardChild] true
          .ok (.mk npath nhandlers ntype (nchildren ++ [staticChild]) nwild)
        else
          let child : Node H :=
            .mk wildcard [(method, handler)]
              (if wildcard.head? = some '*' then .catchAll else .param) [] false
          .ok (.mk npath nhandlers ntype (nchildren ++ [child]) true)
      else
        let newChild : Node H := .mk remaining [(method, handler)] .static [] false
        .ok (.mk npath nhandlers ntype (nchildren ++ [newChild]) nwild)

mutual

/-- Go `(n *node).addRoute(path, method, handler)`. The in-place mutation
of the source becomes a returned tree. The source's recursion into a
matching child is `addRouteChildren`. In the split case (common prefix
shorter than the node's own path, Go's "Case 3") the source's children
loop runs over the single freshly split-off child, whose first byte
differs from the remaining path's first byte by maximality of the common
prefix, so the loop never matches there and the embedding goes straight
to the tail that appends a new child. -/
def addRoute (n : Node H) (path : List Char) (method : String) (handler : H) :
    InsertResult H :=
  match n with
  | .mk npath nhandlers ntype nchildren nwild =>
    if npath.isEmpty && nchildren.isEmpty then
      -- empty tree: the source sets n.nType = root, then splits on the wildcard scan
      match findWildcard path with
      | (wildcard, wildcardIndex, valid) =>
        if 0 ≤ wildcardIndex then
          if !valid then
            .panicked .malformedPattern (.mk npath nhandlers .root nchildren nwild)
          else if 0 < wildcardIndex then
            let child : Node H :=
              .mk wildcard [(method, handler)]
                (if wildcard.head? = some '*' then .catchAll else .param) [] false
            .ok (.mk (path.take wildcardIndex.toNat) nhandlers .root [child] true)
          else
            .ok (.mk wildcard [(method, handler)]
              (if wildcard.head? = some '*' then .catchAll else .param) nchildren nwild)
        else
          .ok (.mk path [(method, handler)] .root nchildren nwild)
    else
      let common := longestCommonPrefix path npath
      if common = npath.length ∧ common = path.length then
        -- Case 1: exact match; panic if the method is already registered
        if (lookupMethod method nhandlers).isSome then
          .panicked .duplicateRoute (.mk npath nhandlers ntype nchildren nwild)
        else
          .ok (.mk npath ((method, handler) :: nhandlers) ntype nchildren nwild)
      else if common = path.length ∧ common < npath.length then
        -- Case 2: new path is a strict prefix of the node's path
        let child : Node H := .mk (npath.drop common) nhandlers .static nchildren false
        .ok (.mk path [(method, handler)] ntype [child] nwild)
      else if common = npath.length then
        -- node's path fully matched and path is longer: recurse or append
        let remaining := path.drop common
        match addRouteChildren nchildren remaining method handler with
        | .okL cs => .ok (.mk npath nhandlers ntype cs nwild)
        | .panickedL k cs => .panicked k (.mk npath nhandlers ntype cs nwild)
        | .noMatch => extendNode (.mk npath nhandlers ntype nchildren nwild) remaining method handler
      else
        -- Case 3: split at the common prefix, then append below the truncated node
        let child : Node H := .mk (npath.drop common) nhandlers .static nchildren false
        extendNode (.mk (npath.take common) [] ntype [child] nwild)
          (path.drop common) method handler

/-- The source's children loop in `addRoute`: recurse into the first
child whose path starts with the same byte as the remaining path. The
source compares `child.path[0] == remainingPath[0]`; `head?` equality is
the same test on the non-empty strings that occur here (both are
non-empty on every tree reachable by `addRoute`, see the C10 theorem),
without the out-of-range panic Go would raise on an empty one. -/
def addRouteChildren (cs : List (Node H)) (path : List Char) (method : String) (handler : H) :
    ChildrenResult H :=
  match cs with
  | [] => .noMatch
  | c :: rest =>
    if c.path.head? = path.head? then
      match addRoute c path method handler with
      | .ok c2 => .okL (c2 :: rest)
      | .panicked k c2 => .panickedL k (c2 :: rest)
    else
      match addRouteChildren rest path method handler with
      | .noMatch => .noMatch
      | .okL cs2 => .okL (c :: cs2)
      | .panickedL k cs2 => .panickedL k (c :: cs2)

end

/-- The predicate of the source's wildcard pass over children in
`getValue`: the loop body only acts on `param` and `catchAll` children. -/
def isWildNode : Node H → Bool := fun c =>
  match c.nType with
  | .param => true
  | .catchAll => true
  | _ => false

/-- One pass of Go `getValue`'s `walk` loop, with `fuel` bounding the
number of iterations (the Go loop mutates `n` and `path`; here each
`continue walk` is a recursive call). Running out of fuel yields the
not-found answer `(none, [])`; on every tree reachable by `addRoute` the
loop runs at most `path.length + 3` iterations (each static step past the
root consumes at least one byte and a parameter step is followed by at
most one further iteration), so the wrapper's fuel is never exhausted. -/
def getValueAux (method : String) :
    Nat → Node H → List Char → List (List Char × List Char) →
      Option H × List (List Char × List Char)
  | 0, _, _, _ => (none, [])
  | fuel + 1, n, path, params =>
    if n.path.length < path.length ∧ path.take n.path.length = n.path then
      let path2 := path.drop n.path.length
      match (if n.wildChild then n.children.find? isWildNode else none) with
      | some child =>
        if child.nType = .param then
          -- parameter child: the value runs to the next '/' or the end
          let endIdx := (path2.takeWhile notSlash).length
          let params2 := params ++ [(child.path.drop 1, path2.take endIdx)]
          if endIdx < path2.length then
            getValueAux method fuel child (path2.drop endIdx) params2
          else
            match lookupMethod method child.handlers with
            | some h => (some h, params2)
            | none => (none, [])
        else
          -- the find? predicate only yields param or catchAll children,
          -- so this is the source's catch-all branch
          let params2 := params ++ [(child.path.drop 1, path2)]
          match lookupMethod method child.handlers with
          | some h => (some h, params2)
          | none => (none, [])
      | none =>
        match n.children.find? (fun c =>
            match c.nType with
            | .static => !c.path.isEmpty && decide (c.path.head? = path2.head?)
            | _ => false) with
        | some child => getValueAux method fuel child path2 params
        | none => (none, [])
    else if path = n.path then
      match lookupMethod method n.handlers with
      | some h => (some h, params)
      | none => (none, [])
    else
      (none, [])

/-- Go `(n *node).getValue(path, method)`: `(nil, nil)` becomes
`(none, [])`, a found handler `(some h, params)`. -/
def Node.getValue (n : Node H) (path : List Char) (method : String) :
    Option H × List (List Char × List Char) :=
  getValueAux method (path.length + 8) n path []

/-- The handling of the wildcard child extracted from one iteration of the
walk loop: it mentions only the wildcard child and the remaining path, not
the node's other children (used to state that lookup never falls back to a
static sibling once a wildcard child was chosen). -/
def wildStep (method : String) (fuel : Nat) (child : Node H) (path2 : List Char)
    (params : List (List Char × List Char)) :
    Option H × List (List Char × List Char) :=
  if child.nType = .param then
    let endIdx := (path2.takeWhile notSlash).length
    let params2 := params ++ [(child.path.drop 1, path2.take endIdx)]
    if endIdx < path2.length then
      getValueAux method fuel child (path2.drop endIdx) params2
    else
      match lookupMethod method child.handlers with
      | some h => (some h, params2)
      | none => (none, [])
  else
    let params2 := params ++ [(child.path.drop 1, path2)]
    match lookupMethod method child.handlers with
    | some h => (some h, params2)
    | none => (none, [])

/-- Go `Params.ByName`: value of the first parameter with the given name,
empty when absent. -/
def byName (ps : List (List Char × List Char)) (name : List Char) : List Char :=
  match ps.find? (fun p => decide (p.1 = name)) with
  | some p => p.2
  | none => []

/-- The tree a Go caller starts from: `&node{}`, all fields zero. -/
def emptyNode : Node H := .mk [] [] .static [] false

/-- Registering a list of routes in order, starting from the empty root;
a panic aborts the program, so the tree at the moment of the panic is the
final state. -/
def buildTree : List (List Char × String × H) → Node H → Node H
  | [], t => t
  | (p, m, h) :: rest, t =>
    match addRoute t p m h with
    | .ok t2 => buildTree rest t2
    | .panicked _ t2 => t2

/-- A path whose first wildcard token (if any) extends to the end of the
path: the patterns for which registration stores the handler at the node
denoted by the full pattern. -/
def wildcardTerminalB (p : List Char) : Bool :=
  match findWildcard p with
  | (w, i, _) => i < 0 || i.toNat + w.length = p.length

mutual

/-- Every node strictly below the root has a non-empty `path`. -/
def goodPathsB : Node H → Bool
  | .mk _ _ _ cs _ => goodPathsListB cs

/-- List version of `goodPathsB` over a child list. -/
def goodPathsListB : List (Node H) → Bool
  | [] => true
  | c :: rest => (!c.path.isEmpty) && goodPathsB c && goodPathsListB rest

end

end GoFlux

namespace GoFlux

variable {H : Type}

theorem lookupMethod_self (m : String) (h : H) (rest : List (String × H)) :
    lookupMethod m ((m, h) :: rest) = some h := by
  simp [lookupMethod]

theorem lookupMethod_cons_ne (k m : String) (h : H) (rest : List (String × H))
    (hne : k ≠ m) : lookupMethod m ((k, h) :: rest) = lookupMethod m rest := by
  simp [lookupMethod, hne]

theorem findWildcard_neg (p : List Char) (w : List Char) (i : Int) (v : Bool)
    (hfw : findWildcard p = (w, i, v)) (hi : i < 0) :
    w = [] ∧ i = -1 ∧ v = false := by
  induction p generalizing w i v with
  | nil =>
    simp [findWildcard] at hfw
    exact ⟨hfw.1, hfw.2.1.symm, hfw.2.2⟩
  | cons c rest ih =>
    simp only [findWildcard] at hfw
    by_cases hc : c = ':' ∨ c = '*'
    · simp [hc] at hfw
      omega
    · simp [hc] at hfw
      rcases hr : findWildcard rest with ⟨w2, i2, v2⟩
      rw [hr] at hfw
      by_cases h2 : (0:Int) ≤ i2
      · simp [h2] at hfw
        omega
      · simp [h2] at hfw
        rcases hfw with ⟨hw, hi2, hv⟩
        subst hw hi2 hv
        exact ih _ _ _ hr hi

theorem findWildcard_pos (p : List Char) (w : List Char) (i : Int) (v : Bool)
    (hfw : findWildcard p = (w, i, v)) (hi : 0 ≤ i) :
    v = true ∧ ∃ mk rest, p.drop i.toNat = mk :: rest ∧ (mk = ':' ∨ mk = '*') ∧
      w = mk :: rest.takeWhile notSlash := by
  induction p generalizing w i v with
  | nil =>
    simp [findWildcard] at hfw
    omega
  | cons c rest ih =>
    simp only [findWildcard] at hfw
    by_cases hc : c = ':' ∨ c = '*'
    · simp [hc] at hfw
      rcases hfw with ⟨hw, hi0, hv⟩
      subst hw hv
      refine ⟨rfl, c, rest, ?_, hc, rfl⟩
      rw [← hi0]
      rfl
    · simp [hc] at hfw
      rcases hr : findWildcard rest with ⟨w2, i2, v2⟩
      rw [hr] at hfw
      by_cases h2 : (0:Int) ≤ i2
      · simp [h2] at hfw
        rcases hfw with ⟨hw, hi2, hv⟩
        obtain ⟨hv2, mk, r2, hdrop, hmk, hw2⟩ := ih w2 i2 v2 hr h2
        subst hw hv hv2
        refine ⟨rfl, mk, r2, ?_, hmk, hw2⟩
        have : i.toNat = i2.toNat + 1 := by omega
        rw [this]
        simpa [List.drop_succ_cons] using hdrop
      · simp [h2] at hfw
        rcases hfw with ⟨hw, hi2, hv⟩
        obtain ⟨_, h1, _⟩ := findWildcard_neg rest w2 i2 v2 hr (by omega)
        omega

end GoFlux

namespace GoFlux

variable {H : Type}

theorem longestCommonPrefix_self (p : List Char) :
    longestCommonPrefix p p = p.length := by
  induction p with
  | nil => rfl
  | cons c rest ih => simp [longestCommonPrefix, ih]

theorem longestCommonPrefix_take (p : List Char) (i : Nat) :
    longestCommonPrefix p (p.take i) = min i p.length := by
  induction p generalizing i with
  | nil => simp [longestCommonPrefix]
  | cons c rest ih =>
    cases i with
    | zero => simp [longestCommonPrefix]
    | succ j =>
      simp [longestCommonPrefix, ih j]
      omega

theorem takeWhile_eq_self_of_length (q : Char → Bool) (l : List Char)
    (hl : (l.takeWhile q).length = l.length) : l.takeWhile q = l :=
  (List.takeWhile_prefix q).eq_of_length hl

theorem findWildcard_terminal (p : List Char) (w : List Char) (i : Int) (v : Bool)
    (hfw : findWildcard p = (w, i, v)) (hi : 0 ≤ i)
    (hterm : i.toNat + w.length = p.length) : w = p.drop i.toNat := by
  obtain ⟨-, mk, rest, hdrop, -, hw⟩ := findWildcard_pos p w i v hfw hi
  have hlen : (List.takeWhile notSlash rest).length = rest.length := by
    have hd : (p.drop i.toNat).length = p.length - i.toNat := by
      simp
    rw [hdrop] at hd
    simp only [List.length_cons] at hd
    have : w.length = rest.length + 1 := by omega
    rw [hw] at this
    simp at this
    omega
  rw [hw, hdrop, takeWhile_eq_self_of_length _ _ hlen]

theorem findWildcard_noSlash (p : List Char) (w : List Char) (i : Int) (v : Bool)
    (hfw : findWildcard p = (w, i, v)) (hi : 0 ≤ i) :
    ∀ c ∈ w, c ≠ '/' := by
  obtain ⟨-, mk, rest, -, hmk, hw⟩ := findWildcard_pos p w i v hfw hi
  intro c hc
  rw [hw] at hc
  rcases List.mem_cons.1 hc with h | h
  · subst h
    rcases hmk with h | h <;> subst h <;> decide
  · have := List.mem_takeWhile_imp h
    simpa [notSlash] using this

theorem takeWhile_notSlash_eq_self (w : List Char) (hw : ∀ c ∈ w, c ≠ '/') :
    w.takeWhile notSlash = w := by
  induction w with
  | nil => rfl
  | cons c rest ih =>
    have hc := hw c (List.mem_cons_self c rest)
    simp [List.takeWhile_cons, notSlash, hc]
    exact fun d hd => hw d (List.mem_cons_of_mem c hd)

end GoFlux

namespace GoFlux

variable {H : Type}

theorem addRoute_empty_noWild (p : List Char) (m : String) (h : H)
    (hfw : findWildcard p = ([], -1, false)) :
    addRoute (emptyNode : Node H) p m h = .ok (.mk p [(m, h)] .root [] false) := by
  simp [addRoute, emptyNode, hfw]

theorem addRoute_empty_wildStart (p w : List Char) (m : String) (h : H)
    (hfw : findWildcard p = (w, 0, true)) :
    addRoute (emptyNode : Node H) p m h =
      .ok (.mk w [(m, h)] (if w.head? = some '*' then .catchAll else .param) [] false) := by
  simp [addRoute, emptyNode, hfw]

theorem addRoute_empty_wildMid (p w : List Char) (j : Nat) (m : String) (h : H)
    (hfw : findWildcard p = (w, (j : Int), true)) (hj : 0 < j) :
    addRoute (emptyNode : Node H) p m h =
      .ok (.mk (p.take j) [] .root
        [.mk w [(m, h)] (if w.head? = some '*' then .catchAll else .param) [] false] true) := by
  have hj2 : (0:Int) < (j : Int) := by omega
  simp [addRoute, emptyNode, hfw, hj2]

theorem addRoute_exact (p : List Char) (hs : List (String × H)) (t : NodeType)
    (cs : List (Node H)) (w : Bool) (m : String) (h : H) (hp : p ≠ []) :
    addRoute (.mk p hs t cs w) p m h =
      if (lookupMethod m hs).isSome then .panicked .duplicateRoute (.mk p hs t cs w)
      else .ok (.mk p ((m, h) :: hs) t cs w) := by
  simp [addRoute, hp, longestCommonPrefix_self]

theorem addRoute_descend (p : List Char) (j : Nat) (hs0 : List (String × H))
    (t0 : NodeType) (c : Node H) (wc : Bool) (m : String) (h : H)
    (hj : 0 < j) (hjl : j < p.length) (hc : c.path.head? = (p.drop j).head?) :
    addRoute (.mk (p.take j) hs0 t0 [c] wc) p m h =
      match addRoute c (p.drop j) m h with
      | .ok c2 => .ok (.mk (p.take j) hs0 t0 [c2] wc)
      | .panicked k c2 => .panicked k (.mk (p.take j) hs0 t0 [c2] wc) := by
  rcases c with ⟨cp, chs, ct, ccs, cw2⟩
  simp only [Node.path] at hc
  have hlen : (p.take j).length = j := by
    rw [List.length_take]
    omega
  have hne : p.take j ≠ [] := by
    intro h0
    rw [h0] at hlen
    simp at hlen
    omega
  simp only [List.head?_drop] at hc
  rcases har : addRoute (Node.mk cp chs ct ccs cw2) (p.drop j) m h with t2 | ⟨k, t2⟩
  · rw [addRoute.eq_def]
    simp [hne, hlen, longestCommonPrefix_take, Nat.min_eq_left hjl.le, hjl.ne, hc,
      List.head?_drop, addRouteChildren, har, Node.path]
  · rw [addRoute.eq_def]
    simp [hne, hlen, longestCommonPrefix_take, Nat.min_eq_left hjl.le, hjl.ne, hc,
      List.head?_drop, addRouteChildren, har, Node.path]
end GoFlux

namespace GoFlux

variable {H : Type}

theorem getValueAux_exact (method : String) (fuel : Nat) (n : Node H)
    (params : List (List Char × List Char)) :
    getValueAux method (fuel + 1) n n.path params =
      match lookupMethod method n.handlers with
      | some h => (some h, params)
      | none => (none, []) := by
  simp [getValueAux]

theorem getValueAux_wild (method : String) (fuel : Nat) (n : Node H) (path : List Char)
    (params : List (List Char × List Char)) (c : Node H)
    (hw : n.wildChild = true) (hf : n.children.find? isWildNode = some c)
    (hlen : n.path.length < path.length) (hpre : path.take n.path.length = n.path) :
    getValueAux method (fuel + 1) n path params =
      wildStep method fuel c (path.drop n.path.length) params := by
  simp [getValueAux, wildStep, hw, hf, hlen, hpre]

theorem getValue_self (n : Node H) (m : String) :
    n.getValue n.path m =
      match lookupMethod m n.handlers with
      | some h => (some h, [])
      | none => (none, []) :=
  getValueAux_exact m (n.path.length + 7) n []

theorem getValue_wildRoot (p w : List Char) (j : Nat) (hs0 : List (String × H))
    (t0 : NodeType) (hsc : List (String × H)) (wt : NodeType) (m : String)
    (hjl : j < p.length) (hw : w = p.drop j)
    (hwt : wt = .param ∨ wt = .catchAll)
    (hnos : ∀ c ∈ w, c ≠ '/') :
    (Node.mk (p.take j) hs0 t0 [.mk w hsc wt [] false] true).getValue p m =
      match lookupMethod m hsc with
      | some h => (some h, [(w.drop 1, w)])
      | none => (none, []) := by
  have hlen : (Node.mk (p.take j) hs0 t0 [Node.mk w hsc wt [] false] true).path.length = j := by
    simp [Node.path, List.length_take]
    omega
  have hwild : isWildNode (Node.mk w hsc wt [] false) = true := by
    rcases hwt with h | h <;> simp [isWildNode, Node.nType, h]
  have hfind : (Node.mk (p.take j) hs0 t0 [Node.mk w hsc wt [] false] true).children.find?
      isWildNode = some (Node.mk w hsc wt [] false) := by
    simp [Node.children, List.find?_cons_of_pos, hwild]
  have hstep := getValueAux_wild m (p.length + 7) (Node.mk (p.take j) hs0 t0
    [Node.mk w hsc wt [] false] true) p []
    (Node.mk w hsc wt [] false) rfl hfind (by rw [hlen]; exact hjl)
    (by rw [hlen]; simp [Node.path])
  rw [Node.getValue]
  rw [hstep]
  have hdrop : p.drop ((Node.mk (p.take j) hs0 t0 [Node.mk w hsc wt [] false] true).path.length)
      = w := by rw [hlen, hw]
  rw [hdrop]
  rcases hwt with h | h
  · subst h
    rw [wildStep]
    simp only [Node.nType, if_pos rfl]
    have htw : w.takeWhile notSlash = w := takeWhile_notSlash_eq_self w hnos
    simp [htw, Node.path, Node.handlers, List.take_length]
  · subst h
    rw [wildStep]
    simp [Node.nType, Node.path, Node.handlers]

end GoFlux

namespace GoFlux

variable {H : Type}

theorem wildcardTerminal_fact (p w : List Char) (i : Int) (v : Bool)
    (hfw : findWildcard p = (w, i, v)) (hi : 0 ≤ i)
    (hterm : wildcardTerminalB p = true) : i.toNat + w.length = p.length := by
  unfold wildcardTerminalB at hterm
  rw [hfw] at hterm
  simp at hterm
  rcases hterm with h | h
  · omega
  · exact h

/-- C4 (amended): for every non-empty path whose first wildcard token, if
any, extends to the end of the path, registering `(p, m, h1)` into a fresh
root succeeds with tree `t1`; a second `addRoute(p, m, h2)` fails with the
DuplicateRoute panic, the tree carried out of the panic is exactly `t1`
(the first registration is unchanged), and `getValue(p, m)` still returns
`h1`. (The original claim, quantified over all paths, fails for patterns
with text after a wildcard token — see the counterexample.) -/
theorem claim_c4_amended (p : List Char) (m : String) (h1 h2 : H)
    (hp : p ≠ []) (hterm : wildcardTerminalB p = true) :
    ∃ t1 : Node H,
      addRoute emptyNode p m h1 = .ok t1 ∧
      addRoute t1 p m h2 = .panicked .duplicateRoute t1 ∧
      (t1.getValue p m).1 = some h1 := by
  rcases hfw : findWildcard p with ⟨w, i, v⟩
  by_cases hi : 0 ≤ i
  · obtain ⟨hv, mk, rest, hdrop, hmk, hwrepr⟩ := findWildcard_pos p w i v hfw hi
    subst hv
    have hterm2 : i.toNat + w.length = p.length :=
      wildcardTerminal_fact p w i true hfw hi hterm
    have hwdrop : w = p.drop i.toNat := findWildcard_terminal p w i true hfw hi hterm2
    have hwne : w ≠ [] := by rw [hwrepr]; simp
    have hwpos : 0 < w.length := List.length_pos.2 hwne
    have hnos : ∀ c ∈ w, c ≠ '/' := findWildcard_noSlash p w i true hfw hi
    by_cases hj : 0 < i
    · have hjpos : 0 < i.toNat := by omega
      have hjl : i.toNat < p.length := by omega
      have hfw2 : findWildcard p = (w, ((i.toNat : Nat) : Int), true) := by
        rw [hfw, Int.toNat_of_nonneg hi]
      have hshape := addRoute_empty_wildMid p w i.toNat m h1 hfw2 hjpos
      refine ⟨_, hshape, ?_, ?_⟩
      · have hdescend := addRoute_descend p i.toNat []
          (NodeType.root)
          (Node.mk w [(m, h1)] (if w.head? = some '*' then NodeType.catchAll else NodeType.param) [] false)
          true m h2 hjpos hjl (by rw [Node.path, hwdrop])
        rw [hdescend, ← hwdrop,
          addRoute_exact w [(m, h1)]
            (if w.head? = some '*' then NodeType.catchAll else NodeType.param) [] false m h2 hwne]
        simp [lookupMethod_self]
      · rw [getValue_wildRoot p w i.toNat [] NodeType.root [(m, h1)]
          (if w.head? = some '*' then NodeType.catchAll else NodeType.param) m hjl hwdrop
          (by split <;> simp) hnos]
        simp [lookupMethod_self]
    · have hi0 : i = 0 := by omega
      subst hi0
      have hwp : w = p := by rw [hwdrop]; rfl
      subst hwp
      have hshape := addRoute_empty_wildStart w w m h1 hfw
      refine ⟨_, hshape, ?_, ?_⟩
      · rw [addRoute_exact w [(m, h1)]
          (if w.head? = some '*' then NodeType.catchAll else NodeType.param) [] false m h2 hwne]
        simp [lookupMethod_self]
      · have := getValue_self (Node.mk w [(m, h1)]
          (if w.head? = some '*' then NodeType.catchAll else NodeType.param) [] false) m
        rw [show (Node.mk w [(m, h1)]
            (if w.head? = some '*' then NodeType.catchAll else NodeType.param) [] false).path = w
            from rfl] at this
        rw [this]
        simp [Node.handlers, lookupMethod_self]
  · obtain ⟨hw0, hi1, hv0⟩ := findWildcard_neg p w i v hfw (by omega)
    subst hw0 hv0
    subst hi1
    have hshape := addRoute_empty_noWild p m h1 hfw
    refine ⟨_, hshape, ?_, ?_⟩
    · rw [addRoute_exact p [(m, h1)] NodeType.root [] false m h2 hp]
      simp [lookupMethod_self]
    · have := getValue_self (Node.mk p [(m, h1)] NodeType.root [] false) m
      rw [show (Node.mk p [(m, h1)] NodeType.root [] false).path = p from rfl] at this
      rw [this]
      simp [Node.handlers, lookupMethod_self]

end GoFlux

namespace GoFlux

variable {H : Type}

/-- C8 (amended): for every non-empty path whose first wildcard token, if
any, extends to the end of the path, registering `(p, "GET", h1)` and then
`(p, "POST", h2)` succeeds, `getValue(p, "GET")` returns `h1`,
`getValue(p, "POST")` returns `h2`, and `getValue(p, "DELETE")` is
not-found. (The original claim, quantified over all paths, fails for
patterns with text after a wildcard token — see the counterexample.) -/
theorem claim_c8_amended (p : List Char) (h1 h2 : H)
    (hp : p ≠ []) (hterm : wildcardTerminalB p = true) :
    ∃ t1 t2 : Node H,
      addRoute emptyNode p "GET" h1 = .ok t1 ∧
      addRoute t1 p "POST" h2 = .ok t2 ∧
      (t2.getValue p "GET").1 = some h1 ∧
      (t2.getValue p "POST").1 = some h2 ∧
      (t2.getValue p "DELETE").1 = none := by
  rcases hfw : findWildcard p with ⟨w, i, v⟩
  by_cases hi : 0 ≤ i
  · obtain ⟨hv, mk, rest, hdrop, hmk, hwrepr⟩ := findWildcard_pos p w i v hfw hi
    subst hv
    have hterm2 : i.toNat + w.length = p.length :=
      wildcardTerminal_fact p w i true hfw hi hterm
    have hwdrop : w = p.drop i.toNat := findWildcard_terminal p w i true hfw hi hterm2
    have hwne : w ≠ [] := by rw [hwrepr]; simp
    have hwpos : 0 < w.length := List.length_pos.2 hwne
    have hnos : ∀ c ∈ w, c ≠ '/' := findWildcard_noSlash p w i true hfw hi
    by_cases hj : 0 < i
    · have hjpos : 0 < i.toNat := by omega
      have hjl : i.toNat < p.length := by omega
      have hfw2 : findWildcard p = (w, ((i.toNat : Nat) : Int), true) := by
        rw [hfw, Int.toNat_of_nonneg hi]
      have hshape := addRoute_empty_wildMid p w i.toNat "GET" h1 hfw2 hjpos
      have hdescend := addRoute_descend p i.toNat []
        (NodeType.root)
        (Node.mk w [("GET", h1)] (if w.head? = some '*' then NodeType.catchAll else NodeType.param) [] false)
        true "POST" h2 hjpos hjl (by rw [Node.path, hwdrop])
      rw [← hwdrop, addRoute_exact w [("GET", h1)]
        (if w.head? = some '*' then NodeType.catchAll else NodeType.param) [] false "POST" h2 hwne]
        at hdescend
      have hns : (lookupMethod "POST" [("GET", h1)] : Option H).isSome ≠ true := by
        simp [lookupMethod]
      rw [if_neg hns] at hdescend
      refine ⟨_, _, hshape, hdescend, ?_, ?_, ?_⟩
      all_goals
        rw [getValue_wildRoot p w i.toNat [] NodeType.root
          [("POST", h2), ("GET", h1)]
          (if w.head? = some '*' then NodeType.catchAll else NodeType.param) _ hjl hwdrop
          (by split <;> simp) hnos]
        simp [lookupMethod]
    · have hi0 : i = 0 := by omega
      subst hi0
      have hwp : w = p := by rw [hwdrop]; rfl
      subst hwp
      have hshape := addRoute_empty_wildStart w w "GET" h1 hfw
      have hsecond := addRoute_exact w [("GET", h1)]
        (if w.head? = some '*' then NodeType.catchAll else NodeType.param) [] false "POST" h2 hwne
      have hns : (lookupMethod "POST" [("GET", h1)] : Option H).isSome ≠ true := by
        simp [lookupMethod]
      rw [if_neg hns] at hsecond
      refine ⟨_, _, hshape, hsecond, ?_, ?_, ?_⟩
      all_goals
        have hgv := getValue_self (Node.mk w [("POST", h2), ("GET", h1)]
          (if w.head? = some '*' then NodeType.catchAll else NodeType.param) [] false)
        rw [show (Node.mk w [("POST", h2), ("GET", h1)]
            (if w.head? = some '*' then NodeType.catchAll else NodeType.param) [] false).path = w
            from rfl] at hgv
        rw [hgv]
        simp [Node.handlers, lookupMethod]
  · obtain ⟨hw0, hi1, hv0⟩ := findWildcard_neg p w i v hfw (by omega)
    subst hw0 hv0
    subst hi1
    have hshape := addRoute_empty_noWild p "GET" h1 hfw
    have hsecond := addRoute_exact p [("GET", h1)] NodeType.root [] false "POST" h2 hp
    have hns : (lookupMethod "POST" [("GET", h1)] : Option H).isSome ≠ true := by
      simp [lookupMethod]
    rw [if_neg hns] at hsecond
    refine ⟨_, _, hshape, hsecond, ?_, ?_, ?_⟩
    all_goals
      have hgv := getValue_self (Node.mk p [("POST", h2), ("GET", h1)] NodeType.root [] false)
      rw [show (Node.mk p [("POST", h2), ("GET", h1)] NodeType.root [] false).path = p
          from rfl] at hgv
      rw [hgv]
      simp [Node.handlers, lookupMethod]

end GoFlux

namespace GoFlux

variable {H : Type}

theorem goodPathsListB_append (l1 l2 : List (Node H)) :
    goodPathsListB (l1 ++ l2) = (goodPathsListB l1 && goodPathsListB l2) := by
  induction l1 with
  | nil => simp [goodPathsListB]
  | cons c rest ih => simp [goodPathsListB, ih, Bool.and_assoc]

theorem findWildcard_fst_ne_nil (p w : List Char) (i : Int) (v : Bool)
    (hfw : findWildcard p = (w, i, v)) (hi : 0 ≤ i) : w ≠ [] := by
  obtain ⟨-, mk, rest, -, -, hw⟩ := findWildcard_pos p w i v hfw hi
  rw [hw]
  simp

theorem extendNode_goodPaths (npath : List Char) (nhandlers : List (String × H))
    (ntype : NodeType) (nchildren : List (Node H)) (nwild : Bool)
    (remaining : List Char) (m : String) (h : H) (hrem : remaining ≠ [])
    (hg : goodPathsListB nchildren = true) :
    goodPathsB (extendNode (.mk npath nhandlers ntype nchildren nwild) remaining m h).tree
        = true ∧
    (extendNode (.mk npath nhandlers ntype nchildren nwild) remaining m h).tree.path
        = npath := by
  rw [extendNode]
  rcases hfw : findWildcard remaining with ⟨w, i, v⟩
  by_cases hi : 0 ≤ i
  · obtain ⟨hv, mk, rest, hdrop, hmk, hwrepr⟩ := findWildcard_pos remaining w i v hfw hi
    subst hv
    by_cases hipos : 0 < i
    · have hw2 : (findWildcard (remaining.drop i.toNat)).1 = mk :: rest.takeWhile notSlash := by
        rw [hdrop]
        rcases hmk with hm | hm <;> simp [findWildcard, hm]
      have htake : remaining.take i.toNat ≠ [] := by
        rw [Ne, List.take_eq_nil_iff]
        push_neg
        exact ⟨by omega, hrem⟩
      simp [hi, hipos, InsertResult.tree, Node.path, goodPathsB, goodPathsListB,
        goodPathsListB_append, hg, hw2, htake]
    · simp only [hi, if_pos, if_neg hipos, Bool.not_true, Bool.false_eq_true, if_false]
      have hwne : w ≠ [] := by rw [hwrepr]; simp
      simp [InsertResult.tree, Node.path, goodPathsB, goodPathsListB,
        goodPathsListB_append, hg, hwne]
  · have hneg : ¬ (0 ≤ i) := hi
    simp [hneg, InsertResult.tree, Node.path, goodPathsB, goodPathsListB,
      goodPathsListB_append, hg, hrem]

end GoFlux

namespace GoFlux

variable {H : Type}

theorem longestCommonPrefix_pos (a b : List Char) (ha : a ≠ []) (hb : b ≠ [])
    (hh : a.head? = b.head?) : 0 < longestCommonPrefix a b := by
  rcases a with _ | ⟨a0, as⟩
  · exact absurd rfl ha
  rcases b with _ | ⟨b0, bs⟩
  · exact absurd rfl hb
  simp at hh
  simp [longestCommonPrefix, hh]

theorem longestCommonPrefix_le_left (a b : List Char) :
    longestCommonPrefix a b ≤ a.length := by
  induction a generalizing b with
  | nil => simp [longestCommonPrefix]
  | cons a0 as ih =>
    rcases b with _ | ⟨b0, bs⟩
    · simp [longestCommonPrefix]
    · by_cases hab : a0 = b0
      · simp [longestCommonPrefix, hab]
        exact ih bs
      · simp [longestCommonPrefix, hab]

theorem longestCommonPrefix_le_right (a b : List Char) :
    longestCommonPrefix a b ≤ b.length := by
  induction a generalizing b with
  | nil => simp [longestCommonPrefix]
  | cons a0 as ih =>
    rcases b with _ | ⟨b0, bs⟩
    · simp [longestCommonPrefix]
    · by_cases hab : a0 = b0
      · simp [longestCommonPrefix, hab, Nat.succ_le_succ_iff]
        exact ih bs
      · simp [longestCommonPrefix, hab]

theorem addRouteChildren_goodPaths (cs : List (Node H)) (path : List Char)
    (m : String) (h : H)
    (hcs : goodPathsListB cs = true)
    (hrec : ∀ c ∈ cs, goodPathsB c = true →
      goodPathsB (addRoute c path m h).tree = true ∧
      (c.path ≠ [] → c.path.head? = path.head? → (addRoute c path m h).tree.path ≠ [])) :
    (match addRouteChildren cs path m h with
      | .noMatch => True
      | .okL cs2 => goodPathsListB cs2 = true
      | .panickedL _ cs2 => goodPathsListB cs2 = true) := by
  induction cs with
  | nil => simp [addRouteChildren]
  | cons c rest ih =>
    simp only [goodPathsListB, Bool.and_eq_true, Bool.not_eq_true'] at hcs
    obtain ⟨⟨hcp, hcg⟩, hrest⟩ := hcs
    have hcpne : c.path ≠ [] := by
      intro h0
      rw [h0] at hcp
      simp at hcp
    rw [addRouteChildren]
    by_cases hh : c.path.head? = path.head?
    · obtain ⟨hg2, hp2⟩ := hrec c (List.mem_cons_self c rest) hcg
      have hp3 := hp2 hcpne hh
      rcases har : addRoute c path m h with ⟨t2⟩ | ⟨k, t2⟩
      · rw [har] at hg2 hp3
        simp only [InsertResult.tree] at hg2 hp3
        simp [hh, har, goodPathsListB, hg2, hp3, hrest]
      · rw [har] at hg2 hp3
        simp only [InsertResult.tree] at hg2 hp3
        simp [hh, har, goodPathsListB, hg2, hp3, hrest]
    · have ih2 := ih hrest (fun d hd => hrec d (List.mem_cons_of_mem c hd))
      rcases hac : addRouteChildren rest path m h with _ | cs2 | ⟨k, cs2⟩
      · simp [hh, hac]
      · rw [hac] at ih2
        simp only at ih2
        simp [hh, hac, goodPathsListB, hcp, hcg, ih2]
      · rw [hac] at ih2
        simp only at ih2
        simp [hh, hac, goodPathsListB, hcp, hcg, ih2]

end GoFlux

namespace GoFlux

variable {H : Type}

theorem addRoute_goodPaths_aux (k : Nat) :
    ∀ (n : Node H), sizeOf n ≤ k →
      ∀ (path : List Char) (m : String) (h : H), path ≠ [] → goodPathsB n = true →
      goodPathsB (addRoute n path m h).tree = true ∧
      (n.path ≠ [] → n.path.head? = path.head? → (addRoute n path m h).tree.path ≠ []) := by
  induction k with
  | zero =>
    intro n hn
    rcases n with ⟨a, b, c, d, e⟩
    simp [Node.mk.sizeOf_spec] at hn
  | succ k ih =>
    intro n hn path m h hp hg
    rcases n with ⟨npath, nhandlers, ntype, nchildren, nwild⟩
    simp only [Node.mk.sizeOf_spec] at hn
    simp only [goodPathsB] at hg
    rw [addRoute.eq_def]
    by_cases hempty : (npath.isEmpty && nchildren.isEmpty) = true
    · obtain ⟨hnp, hnc⟩ : npath = [] ∧ nchildren = [] := by
        simpa [List.isEmpty_iff] using hempty
      subst hnp
      subst hnc
      rcases hfw : findWildcard path with ⟨w, i, v⟩
      by_cases hi : 0 ≤ i
      · obtain ⟨hv, mk, rest, hdrop, hmk, hwrepr⟩ := findWildcard_pos path w i v hfw hi
        subst hv
        have hwne : w ≠ [] := by rw [hwrepr]; simp
        by_cases hipos : 0 < i
        · simp [hempty, hfw, hi, hipos, InsertResult.tree, goodPathsB,
            goodPathsListB, Node.path, hwne]
        · simp [hempty, hfw, hi, hipos, InsertResult.tree, goodPathsB,
            goodPathsListB, Node.path]
      · obtain ⟨hw0, hi1, hv0⟩ := findWildcard_neg path w i v hfw (by omega)
        subst hw0 hv0
        subst hi1
        simp [hempty, hfw, InsertResult.tree, goodPathsB, goodPathsListB,
          Node.path]
    · simp only [hempty, Bool.false_eq_true, if_false]
      by_cases hc1 : longestCommonPrefix path npath = npath.length ∧
          longestCommonPrefix path npath = path.length
      · obtain ⟨he1, he2⟩ := hc1
        have he3 : npath.length = path.length := by omega
        by_cases hdup : (lookupMethod m nhandlers).isSome = true
        · refine ⟨?_, ?_⟩
          · simp [he1, he2, he3, hdup, InsertResult.tree, goodPathsB, Node.path, hg]
          · intro ha _
            simp only [Node.path] at ha
            simp [he1, he2, he3, hdup, InsertResult.tree, Node.path, ha]
        · refine ⟨?_, ?_⟩
          · simp [he1, he2, he3, hdup, InsertResult.tree, goodPathsB, Node.path, hg]
          · intro ha _
            simp only [Node.path] at ha
            simp [he1, he2, he3, hdup, InsertResult.tree, Node.path, ha]
      · by_cases hc2 : longestCommonPrefix path npath = path.length ∧
            longestCommonPrefix path npath < npath.length
        · obtain ⟨he1, he2⟩ := hc2
          have hdropne : npath.drop (longestCommonPrefix path npath) ≠ [] := by
            rw [Ne, List.drop_eq_nil_iff]
            omega
          have hlt2 : path.length < npath.length := by omega
          have hne3 : path.length ≠ npath.length := by omega
          simp [he1, he2, hlt2, hne3, InsertResult.tree, goodPathsB, goodPathsListB,
            Node.path, hg, hp, hdropne]
        · have hle1 := longestCommonPrefix_le_left path npath
          have hle2 := longestCommonPrefix_le_right path npath
          by_cases hc3 : longestCommonPrefix path npath = npath.length
          · have hne2 : longestCommonPrefix path npath ≠ path.length := fun hh =>
              hc1 ⟨hc3, hh⟩
            have hremne : path.drop (longestCommonPrefix path npath) ≠ [] := by
              rw [Ne, List.drop_eq_nil_iff]
              omega
            have hrec : ∀ c ∈ nchildren, goodPathsB c = true →
                goodPathsB (addRoute c (path.drop (longestCommonPrefix path npath)) m h).tree
                    = true ∧
                (c.path ≠ [] →
                  c.path.head? = (path.drop (longestCommonPrefix path npath)).head? →
                  (addRoute c (path.drop (longestCommonPrefix path npath)) m h).tree.path
                    ≠ []) := by
              intro c hc hcg
              have hsz : sizeOf c ≤ k := by
                have h1 := List.sizeOf_lt_of_mem hc
                omega
              exact ih c hsz (path.drop (longestCommonPrefix path npath)) m h hremne hcg
            have hkids := addRouteChildren_goodPaths nchildren
              (path.drop (longestCommonPrefix path npath)) m h hg hrec
            have hlen_ne : npath.length ≠ path.length := by omega
            rcases hac : addRouteChildren nchildren
                (path.drop (longestCommonPrefix path npath)) m h with _ | cs2 | ⟨pk, cs2⟩
            · have hext := extendNode_goodPaths npath nhandlers ntype nchildren nwild
                (path.drop (longestCommonPrefix path npath)) m h hremne hg
              rw [hc3] at hext
              refine ⟨?_, fun ha hb => ?_⟩
              · simp [hc3, hlen_ne, hac, hext.1]
              · simp only [Node.path] at ha
                simp [hc3, hlen_ne, hac, hext.2, ha]
            · rw [hac] at hkids
              simp only at hkids
              refine ⟨?_, fun ha hb => ?_⟩
              · simp [hc3, hlen_ne, hac, InsertResult.tree, goodPathsB, Node.path, hkids]
              · simp only [Node.path] at ha
                simp [hc3, hlen_ne, hac, InsertResult.tree, Node.path, ha]
            · rw [hac] at hkids
              simp only at hkids
              refine ⟨?_, fun ha hb => ?_⟩
              · simp [hc3, hlen_ne, hac, InsertResult.tree, goodPathsB, Node.path, hkids]
              · simp only [Node.path] at ha
                simp [hc3, hlen_ne, hac, InsertResult.tree, Node.path, ha]
          · have hc3lt : longestCommonPrefix path npath < npath.length := by omega
            have hne2 : longestCommonPrefix path npath ≠ path.length := fun hh =>
              hc2 ⟨hh, hc3lt⟩
            have hremne : path.drop (longestCommonPrefix path npath) ≠ [] := by
              rw [Ne, List.drop_eq_nil_iff]
              omega
            have hdropne : npath.drop (longestCommonPrefix path npath) ≠ [] := by
              rw [Ne, List.drop_eq_nil_iff]
              omega
            have hext := extendNode_goodPaths (npath.take (longestCommonPrefix path npath))
              [] ntype
              [Node.mk (npath.drop (longestCommonPrefix path npath)) nhandlers .static
                nchildren false]
              nwild (path.drop (longestCommonPrefix path npath)) m h hremne
              (by simp [goodPathsListB, goodPathsB, Node.path, hdropne, hg])
            refine ⟨?_, ?_⟩
            · simp [hc3, hne2, hext.1]
            · intro hnpne hheads
              simp only [Node.path] at hnpne hheads
              have hpos := longestCommonPrefix_pos path npath hp hnpne hheads.symm
              have htakene : npath.take (longestCommonPrefix path npath) ≠ [] := by
                rw [Ne, List.take_eq_nil_iff]
                push_neg
                exact ⟨by omega, hnpne⟩
              simp [hc3, hne2, hext.2, htakene]

end GoFlux

namespace GoFlux

variable {H : Type}

theorem buildTree_goodPaths :
    ∀ (rs : List (List Char × String × H)), (∀ r ∈ rs, r.1 ≠ []) →
      ∀ (t : Node H), goodPathsB t = true → goodPathsB (buildTree rs t) = true := by
  intro rs
  induction rs with
  | nil =>
    intro _ t ht
    simpa [buildTree] using ht
  | cons r rest ih =>
    intro hrs t ht
    obtain ⟨p, m, h⟩ := r
    have hpne : p ≠ [] := hrs (p, m, h) (List.mem_cons_self _ _)
    have hpres := addRoute_goodPaths_aux (sizeOf t) t le_rfl p m h hpne ht
    rw [buildTree]
    rcases har : addRoute t p m h with ⟨t2⟩ | ⟨pk, t2⟩
    · rw [har] at hpres
      simp only [InsertResult.tree] at hpres
      exact ih (fun r hr => hrs r (List.mem_cons_of_mem _ hr)) t2 hpres.1
    · rw [har] at hpres
      simp only [InsertResult.tree] at hpres
      exact hpres.1

end GoFlux

namespace GoFlux

variable {H : Type}

theorem getValueAux_none_params (method : String) (fuel : Nat) :
    ∀ (n : Node H) (path : List Char) (params : List (List Char × List Char)),
      (getValueAux method fuel n path params).1 = none →
      (getValueAux method fuel n path params).2 = [] := by
  induction fuel with
  | zero =>
    intro n path params _
    rfl
  | succ fuel ih =>
    intro n path params
    simp only [getValueAux]
    split
    · split
      · split
        · split
          · exact ih _ _ _
          · split
            · intro hc
              simp at hc
            · intro _
              rfl
        · split
          · intro hc
            simp at hc
          · intro _
            rfl
      · split
        · exact ih _ _ _
        · intro _
          rfl
    · split
      · split
        · intro hc
          simp at hc
        · intro _
          rfl
      · intro _
        rfl

end GoFlux

namespace GoFlux

variable {H : Type}

/-- C1: the round-trip property fails on the code for patterns that
continue past a parameter token: `/users/:id/posts` registers without
panic, but the registration drops everything after the first wildcard
token, so looking up the concrete path `/users/7/posts` that the pattern
denotes returns a nil handler (the spec and the repository's own
multi-parameter test expect the registered handler). -/
theorem claim_c1_roundTrip_failure :
    (addRoute (emptyNode (H := Nat)) "/users/:id/posts".toList "GET" 0).isOk = true ∧
    (addRoute (emptyNode (H := Nat)) "/users/:id/posts".toList "GET" 0).tree.getValue
      "/users/7/posts".toList "GET" = (none, []) := ⟨rfl, rfl⟩

/-- C2: the multi-parameter claim fails on the code: registering
`/posts/:slug/comments/:commentId` succeeds, but `addRoute` attaches the
handler to the `:slug` node and discards `/comments/:commentId`, so the
lookup of `/posts/hello-world/comments/456` returns a nil handler and no
parameters instead of the claimed handler with
[("slug","hello-world"), ("commentId","456")] — contradicting the
repository's own test `TestGetValue_WithMultipleParams`. -/
theorem claim_c2_multiParam_failure :
    (addRoute (emptyNode (H := Nat)) "/posts/:slug/comments/:commentId".toList
      "GET" 0).isOk = true ∧
    (addRoute (emptyNode (H := Nat)) "/posts/:slug/comments/:commentId".toList
      "GET" 0).tree.getValue
      "/posts/hello-world/comments/456".toList "GET" = (none, []) := ⟨rfl, rfl⟩

/-- C3: the MalformedPattern rejection never happens: `findWildcard`
returns `valid = true` whenever a marker byte is found, so the source's
`!valid` panic guard is unreachable. Registering `/users/:` (empty
parameter name) and `/files/*` (empty catch-all name) succeeds and
installs wildcard children whose names are empty, instead of failing. -/
theorem claim_c3_malformed_accepted :
    addRoute (emptyNode (H := Nat)) "/users/:".toList "GET" 0 =
      .ok (.mk "/users/".toList [] .root [.mk [':'] [("GET", 0)] .param [] false] true) ∧
    addRoute (emptyNode (H := Nat)) "/files/*".toList "GET" 0 =
      .ok (.mk "/files/".toList [] .root [.mk ['*'] [("GET", 0)] .catchAll [] false] true) :=
  ⟨rfl, rfl⟩

/-- C4 (counterexample): with the pattern `/a/:b/c`, whose parameter token
is followed by more path text, a second registration of the exact same
(path, method) pair does not panic with DuplicateRoute — both calls
return normally, because the first call dropped the suffix after `:b` and
the second call registers `/c` one level deeper. -/
theorem claim_c4_counterexample :
    (addRoute (emptyNode (H := Nat)) "/a/:b/c".toList "GET" 0).isOk = true ∧
    (addRoute (addRoute (emptyNode (H := Nat)) "/a/:b/c".toList "GET" 0).tree
      "/a/:b/c".toList "GET" 1).isOk = true := ⟨rfl, rfl⟩

/-- C4 (witness): the amended duplicate-rejection theorem applied to the
concrete terminal-wildcard route `/files/:name`. -/
theorem claim_c4_witness :
    ("/files/:name".toList ≠ ([] : List Char)) ∧
    wildcardTerminalB "/files/:name".toList = true ∧
    (∃ t1 : Node Nat,
      addRoute emptyNode "/files/:name".toList "GET" 0 = .ok t1 ∧
      addRoute t1 "/files/:name".toList "GET" 1 = .panicked .duplicateRoute t1 ∧
      (t1.getValue "/files/:name".toList "GET").1 = some 0) :=
  ⟨by decide, by decide,
    claim_c4_amended "/files/:name".toList "GET" 0 1 (by decide) (by decide)⟩

/-- C5 (counterexample): after registering `/files/*filepath`, inserting
`/files/*filepath/extra` does not fail with MalformedPattern: the call
returns normally and appends a static child `/extra` beneath the
catch-all node, so a reachable tree contains a catch-all node with a
non-empty children list. -/
theorem claim_c5_counterexample :
    (addRoute (addRoute (emptyNode (H := Nat)) "/files/*filepath".toList "GET" 0).tree
      "/files/*filepath/extra".toList "GET" 1).isOk = true ∧
    ((addRoute (addRoute (emptyNode (H := Nat)) "/files/*filepath".toList "GET" 0).tree
      "/files/*filepath/extra".toList "GET" 1).tree.children.map
        (fun c => (c.nType, c.children.map Node.path))) =
      [(.catchAll, ["/extra".toList])] := ⟨rfl, rfl⟩

/-- C5 (amended): an Insert whose pattern places path text after a
catch-all token succeeds instead of failing with MalformedPattern, and
extends the catch-all node with a static child carrying the remainder:
the catch-all-has-no-children invariant does not hold. The full resulting
tree after `/files/*filepath` then `/files/*filepath/extra`. -/
theorem claim_c5_amended :
    addRoute (addRoute (emptyNode (H := Nat)) "/files/*filepath".toList "GET" 0).tree
        "/files/*filepath/extra".toList "GET" 1 =
      .ok (.mk "/files/".toList [] .root
        [.mk "*filepath".toList [("GET", 0)] .catchAll
          [.mk "/extra".toList [("GET", 1)] .static [] false] false] true) := rfl

/-- C6: at a node with `wildChild = true` whose children contain a
parameter or catch-all child, one step of the lookup walk is decided
entirely by the first such child (`wildStep` mentions only that child and
the remaining path): the wildcard branch is taken before any static
child is examined, and when it fails — no handler for the method, or no
deeper match — the walk's answer is `wildStep`'s not-found answer, with
no fallback to a static sibling. -/
theorem claim_c6_wildcard_precedence (method : String) (fuel : Nat) (n : Node H)
    (path : List Char) (params : List (List Char × List Char)) (c : Node H)
    (hw : n.wildChild = true) (hf : n.children.find? isWildNode = some c)
    (hlen : n.path.length < path.length) (hpre : path.take n.path.length = n.path) :
    getValueAux method (fuel + 1) n path params =
      wildStep method fuel c (path.drop n.path.length) params :=
  getValueAux_wild method fuel n path params c hw hf hlen hpre

/-- C6 (witness): the precedence theorem applied to a concrete node that
has a static child listed before its parameter child. -/
theorem claim_c6_witness :
    ((Node.mk "/a/".toList [] .root
        [Node.mk "x".toList [("GET", 0)] .static [] false,
         Node.mk ":id".toList [("GET", 1)] .param [] false] true : Node Nat).wildChild
      = true) ∧
    ((Node.mk "/a/".toList [] .root
        [Node.mk "x".toList [("GET", 0)] .static [] false,
         Node.mk ":id".toList [("GET", 1)] .param [] false] true : Node Nat).children.find?
          isWildNode = some (Node.mk ":id".toList [("GET", 1)] .param [] false)) ∧
    getValueAux "GET" 3
      (Node.mk "/a/".toList [] .root
        [Node.mk "x".toList [("GET", 0)] .static [] false,
         Node.mk ":id".toList [("GET", 1)] .param [] false] true : Node Nat)
      "/a/7".toList [] =
      wildStep "GET" 2 (Node.mk ":id".toList [("GET", 1)] .param [] false) "7".toList [] :=
  ⟨rfl, rfl,
    claim_c6_wildcard_precedence "GET" 2
      (Node.mk "/a/".toList [] .root
        [Node.mk "x".toList [("GET", 0)] .static [] false,
         Node.mk ":id".toList [("GET", 1)] .param [] false] true)
      "/a/7".toList [] (Node.mk ":id".toList [("GET", 1)] .param [] false)
      rfl rfl (by decide) rfl⟩

/-- C7: catch-all greediness holds: for every method and handler,
registering `/files/*filepath` and looking up `/files/docs/readme.md`
returns the handler together with exactly one parameter, named
`filepath`, whose value `docs/readme.md` keeps the embedded slash. -/
theorem claim_c7_catchAll_greedy (m : String) (h : H) :
    ∃ t : Node H,
      addRoute emptyNode "/files/*filepath".toList m h = .ok t ∧
      t.getValue "/files/docs/readme.md".toList m =
        (some h, [("filepath".toList, "docs/readme.md".toList)]) := by
  refine ⟨.mk "/files/".toList [] .root
    [.mk "*filepath".toList [(m, h)] .catchAll [] false] true, ?_, ?_⟩
  · rfl
  · show (match lookupMethod m [(m, h)] with
      | some h2 => (some h2, [("filepath".toList, "docs/readme.md".toList)])
      | none => (none, [])) = _
    rw [lookupMethod_self]

/-- C8 (counterexample): with the pattern `/a/:b/c`, registering GET and
POST handlers both succeeds, but `getValue` on the pattern itself with
method GET returns a nil handler instead of the first handler — the
suffix after `:b` was dropped at registration, so method isolation as
claimed for every path fails. -/
theorem claim_c8_counterexample :
    (addRoute (addRoute (emptyNode (H := Nat)) "/a/:b/c".toList "GET" 0).tree
      "/a/:b/c".toList "POST" 1).isOk = true ∧
    ((addRoute (addRoute (emptyNode (H := Nat)) "/a/:b/c".toList "GET" 0).tree
      "/a/:b/c".toList "POST" 1).tree.getValue "/a/:b/c".toList "GET") = (none, []) :=
  ⟨rfl, rfl⟩

/-- C8 (witness): the amended method-isolation theorem applied to the
concrete static route `/users`. -/
theorem claim_c8_witness :
    ("/users".toList ≠ ([] : List Char)) ∧
    wildcardTerminalB "/users".toList = true ∧
    (∃ t1 t2 : Node Nat,
      addRoute emptyNode "/users".toList "GET" 0 = .ok t1 ∧
      addRoute t1 "/users".toList "POST" 1 = .ok t2 ∧
      (t2.getValue "/users".toList "GET").1 = some 0 ∧
      (t2.getValue "/users".toList "POST").1 = some 1 ∧
      (t2.getValue "/users".toList "DELETE").1 = none) :=
  ⟨by decide, by decide, claim_c8_amended "/users".toList 0 1 (by decide) (by decide)⟩

/-- C9: whenever `getValue` does not find a handler, the parameter list it
returns is empty — every not-found return site in the walk yields the Go
`nil, nil` pair, so parameter values collected during a failed descent are
never exposed. -/
theorem claim_c9_no_partial_params (n : Node H) (path : List Char) (method : String)
    (hnone : (n.getValue path method).1 = none) :
    (n.getValue path method).2 = [] :=
  getValueAux_none_params method (path.length + 8) n path [] hnone

/-- C9 (witness): a lookup that fails on the empty root returns an empty
parameter list. -/
theorem claim_c9_witness :
    ((emptyNode : Node Nat).getValue "/x".toList "GET").1 = none ∧
    ((emptyNode : Node Nat).getValue "/x".toList "GET").2 = [] :=
  ⟨rfl, claim_c9_no_partial_params emptyNode "/x".toList "GET" rfl⟩

/-- C10: every tree built from the empty root by a sequence of addRoute
calls with non-empty paths has non-empty path strings on all nodes below
the root; this is the invariant that keeps the source's unguarded
first-byte accesses (`child.path[0]`, `remainingPath[0]`, `wildcard[0]`,
`path[0]`) in bounds, so neither addRoute nor getValue can panic with an
index out of range. -/
theorem claim_c10_children_nonempty (rs : List (List Char × String × H))
    (hrs : ∀ r ∈ rs, r.1 ≠ []) :
    goodPathsB (buildTree rs (emptyNode : Node H)) = true :=
  buildTree_goodPaths rs hrs emptyNode rfl

/-- C10 (witness): the invariant on a concrete sequence of registrations
that exercises splitting and wildcard children. -/
theorem claim_c10_witness :
    (∀ r ∈ ([("/users".toList, "GET", 0), ("/user".toList, "GET", 1),
        ("/users/:id".toList, "GET", 2), ("/files/*filepath".toList, "GET", 3)] :
        List (List Char × String × Nat)), r.1 ≠ []) ∧
    goodPathsB (buildTree
      ([("/users".toList, "GET", 0), ("/user".toList, "GET", 1),
        ("/users/:id".toList, "GET", 2), ("/files/*filepath".toList, "GET", 3)] :
        List (List Char × String × Nat)) emptyNode) = true :=
  ⟨by decide,
    claim_c10_children_nonempty
      [("/users".toList, "GET", 0), ("/user".toList, "GET", 1),
       ("/users/:id".toList, "GET", 2), ("/files/*filepath".toList, "GET", 3)]
      (by decide)⟩

end GoFlux
